import Mathlib

/-!
Verification of the bedrock-translation-service proxy
(`bedrock_converse_proxy.py`, `custom_bedrock_provider.py`).

The Python code is shallowly embedded: JSON values become the inductive
`Json`, Python dicts become association lists, exceptions become `Except`,
and the HTTP handlers become pure functions from the parsed request body
and the backend outcome to the list of writes performed on the client
connection.
-/

set_option maxRecDepth 10000

namespace BTS

/-- Shallow embedding of a JSON value (Python objects passed around by the
proxy). Numbers are modelled as rationals, which is faithful for the JSON
literals the proxy manipulates. Objects are ordered association lists. -/
inductive Json : Type where
  | null : Json
  | bool : Bool → Json
  | num : ℚ → Json
  | str : String → Json
  | arr : List Json → Json
  | obj : List (String × Json) → Json

namespace Json

/-- `d.get(k)` on a Python dict, returning `None` when the key is absent or
the value is not a dict: first binding wins. Here: `some v` when present. -/
def lookup (j : Json) (k : String) : Option Json :=
  match j with
  | .obj fields => fields.lookup k
  | _ => none

/-- `d.get(k, default)` on a Python dict. -/
def getD (j : Json) (k : String) (d : Json) : Json :=
  (j.lookup k).getD d

/-- `k in d` for a Python dict. -/
def hasKey (j : Json) (k : String) : Bool :=
  (j.lookup k).isSome

/-- `d[k]` on a Python dict: raises `KeyError` (here: `Except.error`) when
the key is absent, `TypeError` when the value is not a dict. -/
def index (j : Json) (k : String) : Except String Json :=
  match j with
  | .obj fields =>
    match fields.lookup k with
    | some v => .ok v
    | none => .error ("KeyError: " ++ k)
  | _ => .error "TypeError: not subscriptable"

end Json

/-- Python `str(x)` rendering of a value, used for the fallback branch
`bedrock_content = [{'text': str(content)}]`. The proxy never inspects the
rendered text, so a simple deterministic renderer is a faithful model. -/
def pyStr : Json → String
  | .null => "None"
  | .bool true => "True"
  | .bool false => "False"
  | .num q => toString q
  | .str s => s
  | .arr xs => "[" ++ String.intercalate ", " (xs.attach.map fun x => pyStr x.1) ++ "]"
  | .obj fs => "\x7b" ++ String.intercalate ", " (fs.attach.map fun f => f.1.1 ++ ": " ++ pyStr f.1.2) ++ "\x7d"
decreasing_by
  · have h := List.sizeOf_lt_of_mem x.2
    simp only [Json.arr.sizeOf_spec]
    omega
  · have h := List.sizeOf_lt_of_mem f.2
    have h2 : sizeOf f.1.2 < sizeOf f.1 := by
      obtain ⟨a, b⟩ := f.1
      simp +arith
    simp only [Json.obj.sizeOf_spec]
    omega

/-- Python iteration `for x in v`: lists yield their items, strings yield
their one-character substrings, dicts yield their keys; other values raise
`TypeError`. -/
def pyIter : Json → Except String (List Json)
  | .arr xs => .ok xs
  | .str s => .ok (s.toList.map fun c => .str (String.mk [c]))
  | .obj fs => .ok (fs.map fun f => Json.str f.1)
  | _ => .error "TypeError: object is not iterable"

/-!  ## Request translation (shared by `/v1/messages` and `/model/*/invoke`)

Embeds the per-message conversion loop of `handle_messages_endpoint`
(lines 68–88) and `handle_invoke_endpoint` (lines 230–250), which are
textually identical in the source.
-/

/-- One `item` of a list-valued `content`: appended as a text block when it
is a dict with `type == 'text'` (raising `KeyError` when it then lacks
`'text'`) or a bare string; otherwise skipped. -/
def convertItem (item : Json) : Except String (Option Json) :=
  match item with
  | .obj fs =>
    match fs.lookup "type" with
    | some (.str "text") =>
      match fs.lookup "text" with
      | some t => .ok (some (.obj [("text", t)]))
      | none => .error "KeyError: text"
    | _ => .ok none
  | .str s => .ok (some (.obj [("text", .str s)]))
  | _ => .ok none

/-- The `for item in content` accumulation into `bedrock_content`:
sequential, first raised error wins, skipped items append nothing. -/
def convertItems : List Json → Except String (List Json)
  | [] => .ok []
  | item :: rest =>
    match convertItem item with
    | .error e => .error e
    | .ok (some b) =>
      match convertItems rest with
      | .error e => .error e
      | .ok bs => .ok (b :: bs)
    | .ok none => convertItems rest

/-- The `content` → `bedrock_content` conversion: a string becomes one text
block, a list keeps its recognized items, anything else is stringified into
one text block. -/
def convertContent (content : Json) : Except String (List Json) :=
  match content with
  | .str s => .ok [.obj [("text", .str s)]]
  | .arr items => convertItems items
  | c => .ok [.obj [("text", .str (pyStr c))]]

/-- One iteration of the message loop: `msg['role']`, `msg['content']`,
convert the content, build `{'role': role, 'content': bedrock_content}`. -/
def convertMessage (msg : Json) : Except String Json :=
  match msg.index "role" with
  | .error e => .error e
  | .ok role =>
    match msg.index "content" with
    | .error e => .error e
    | .ok content =>
      match convertContent content with
      | .error e => .error e
      | .ok bedrockContent => .ok (.obj [("role", role), ("content", .arr bedrockContent)])

/-- The `for msg in ...` accumulation into `bedrock_messages`. -/
def convertMessageList : List Json → Except String (List Json)
  | [] => .ok []
  | m :: ms =>
    match convertMessage m with
    | .error e => .error e
    | .ok bm =>
      match convertMessageList ms with
      | .error e => .error e
      | .ok bms => .ok (bm :: bms)

/-- The whole message loop over `claude_request.get('messages', [])`. -/
def convertMessages (body : Json) : Except String (List Json) :=
  match pyIter (body.getD "messages" (.arr [])) with
  | .error e => .error e
  | .ok msgs => convertMessageList msgs

/-- The `system` handling (lines 61–65): forwarded only when it is a
non-empty, non-whitespace string. -/
def systemContent (body : Json) : Option Json :=
  match body.lookup "system" with
  | some (.str s) => if s.trim ≠ "" then some (.arr [.obj [("text", .str s)]]) else none
  | _ => none

/-- `'system' in claude_request` / `claude_request.get` both require a dict
on the Python side; a non-dict body raises before any translation. -/
def requireObj (body : Json) : Except String Unit :=
  match body with
  | .obj _ => .ok ()
  | _ => .error "TypeError: request body is not an object"

/-- The `bedrock_request` built by `/v1/messages` (lines 91–101): fixed
model id, converted messages, and an `inferenceConfig` that always carries
`maxTokens` (default 4096) and `temperature` (default 0.7). -/
def translateMessagesRequest (body : Json) : Except String Json :=
  match requireObj body with
  | .error e => .error e
  | .ok _ =>
    match convertMessages body with
    | .error e => .error e
    | .ok msgs =>
      let base : List (String × Json) :=
        [("modelId", .str "us.anthropic.claude-3-5-sonnet-20241022-v2:0"),
         ("messages", .arr msgs),
         ("inferenceConfig", .obj
           [("maxTokens", body.getD "max_tokens" (.num 4096)),
            ("temperature", body.getD "temperature" (.num (7/10)))])]
      match systemContent body with
      | some sc => .ok (.obj (base ++ [("system", sc)]))
      | none => .ok (.obj base)

/-- The `bedrock_request` built by the invoke endpoints (lines 253–267):
path-derived model id, and `stopSequences` appended inside
`inferenceConfig` when the client sent `stop_sequences`. -/
def translateInvokeRequest (modelId : String) (body : Json) : Except String Json :=
  match requireObj body with
  | .error e => .error e
  | .ok _ =>
    match convertMessages body with
    | .error e => .error e
    | .ok msgs =>
      let infBase : List (String × Json) :=
        [("maxTokens", body.getD "max_tokens" (.num 4096)),
         ("temperature", body.getD "temperature" (.num (7/10)))]
      let inf : List (String × Json) :=
        match body.lookup "stop_sequences" with
        | some ss => infBase ++ [("stopSequences", ss)]
        | none => infBase
      let base : List (String × Json) :=
        [("modelId", .str modelId),
         ("messages", .arr msgs),
         ("inferenceConfig", .obj inf)]
      match systemContent body with
      | some sc => .ok (.obj (base ++ [("system", sc)]))
      | none => .ok (.obj base)

/-!  ## Response translation -/

/-- `v[0]` in Python: first element of a list (IndexError when empty),
first character of a string, `TypeError`/`KeyError` otherwise. -/
def pyIndex0 (j : Json) : Except String Json :=
  match j with
  | .arr (x :: _) => .ok x
  | .arr [] => .error "IndexError: list index out of range"
  | .str s =>
    match s.toList with
    | c :: _ => .ok (.str (String.mk [c]))
    | [] => .error "IndexError: string index out of range"
  | _ => .error "TypeError: not subscriptable"

/-- Executable substring test on character lists (Python `a in b` for
strings, `str.replace`'s scan, `_translate_endpoint`'s `in` checks). -/
def seg (needle hay : List Char) : Bool :=
  hay.tails.any needle.isPrefixOf

/-- `k in v` in Python: key membership for dicts, substring test for
strings, element membership for lists, `TypeError` otherwise. -/
def pyContains (j : Json) (k : String) : Except String Bool :=
  match j with
  | .obj fs => .ok (fs.lookup k).isSome
  | .str s => .ok (seg k.toList s.toList)
  | .arr xs => .ok (xs.any fun x => match x with | .str s => s == k | _ => false)
  | _ => .error "TypeError: argument is not iterable"

/-- The path `response['output']['message']['content'][0]['text']`
(line 146). -/
def extractContentText (resp : Json) : Except String Json :=
  match resp.index "output" with
  | .error e => .error e
  | .ok output =>
    match output.index "message" with
    | .error e => .error e
    | .ok message =>
      match message.index "content" with
      | .error e => .error e
      | .ok contentArr =>
        match pyIndex0 contentArr with
        | .error e => .error e
        | .ok first => first.index "text"

/-- The `/v1/messages` response conversion (lines 146–160): the content
text extraction, then the `claude_response` dict literal, whose
construction reads `response['usage']` (raising when absent). `idHex`
stands for the `os.urandom(12).hex()` call. -/
def buildClaudeResponse (idHex : String) (body resp : Json) : Except String Json :=
  match extractContentText resp with
  | .error e => .error e
  | .ok content =>
    match resp.index "usage" with
    | .error e => .error e
    | .ok usage => .ok (.obj
    [("id", .str ("msg_" ++ idHex)),
     ("type", .str "message"),
     ("role", .str "assistant"),
     ("content", content),
     ("model", body.getD "model" (.str "claude-3-5-sonnet-20241022")),
     ("stop_reason", resp.getD "stopReason" (.str "end_turn")),
     ("stop_sequence", .null),
     ("usage", .obj
       [("input_tokens", usage.getD "inputTokens" (.num 0)),
        ("output_tokens", usage.getD "outputTokens" (.num 0))])])

/-- The `for content_item in ...` loop of the invoke-endpoint response
conversion: text-bearing items become `{'type':'text','text':...}`. -/
def collectTextBlocks : List Json → Except String (List Json)
  | [] => .ok []
  | item :: rest =>
    match pyContains item "text" with
    | .error e => .error e
    | .ok true =>
      match item.index "text" with
      | .error e => .error e
      | .ok t =>
        match collectTextBlocks rest with
        | .error e => .error e
        | .ok bs => .ok ((.obj [("type", .str "text"), ("text", t)]) :: bs)
    | .ok false => collectTextBlocks rest

/-- The invoke endpoint's `content_blocks` collection: iterate
`response['output']['message']['content']`, keeping text-bearing items. -/
def invokeContentBlocks (resp : Json) : Except String (List Json) :=
  match resp.index "output" with
  | .error e => .error e
  | .ok output =>
    match output.index "message" with
    | .error e => .error e
    | .ok message =>
      match message.index "content" with
      | .error e => .error e
      | .ok contentArr =>
        match pyIter contentArr with
        | .error e => .error e
        | .ok items => collectTextBlocks items

/-- The invoke-endpoint response conversion (lines 316–336): text-bearing
items of `output.message.content` become `{'type':'text','text':...}`
blocks, then the `anthropic_response` dict literal. -/
def buildInvokeResponse (idHex modelId : String) (resp : Json) : Except String Json :=
  match invokeContentBlocks resp with
  | .error e => .error e
  | .ok blocks =>
    match resp.index "usage" with
    | .error e => .error e
    | .ok usage => .ok (.obj
      [("id", .str ("msg_" ++ idHex)),
       ("type", .str "message"),
       ("role", .str "assistant"),
       ("content", .arr blocks),
       ("model", .str modelId),
       ("stop_reason", resp.getD "stopReason" (.str "end_turn")),
       ("stop_sequence", .null),
       ("usage", .obj
         [("input_tokens", usage.getD "inputTokens" (.num 0)),
          ("output_tokens", usage.getD "outputTokens" (.num 0))])])

/-!  ## The error-handling skeleton of `handle_messages_endpoint`

The outcome of the backend call is an input: `ok` a parsed JSON response,
`httpError` a `requests.exceptions.HTTPError` (raised by
`raise_for_status`), `failure` any other exception raised while calling
the backend (connection errors, boto3 client errors, ...). The function
returns the `(status, body)` pairs written to the client connection: the
`except requests.exceptions.HTTPError` clause (lines 174–180) only logs,
while the generic `except Exception` clause (lines 181–198) writes the
500 error body. -/

inductive BackendResult : Type where
  | ok (resp : Json)
  | httpError (detail : String)
  | failure (msg : String)

/-- The `{type:'error', error:{type:'api_error', message}}` body. -/
def errorBody (msg : String) : Json :=
  .obj [("type", .str "error"),
        ("error", .obj [("type", .str "api_error"), ("message", .str msg)])]

/-- Everything `handle_messages_endpoint` writes to the client, given the
parsed request body and the backend outcome. -/
def handleMessagesWrites (idHex : String) (body : Json) (backend : BackendResult) :
    List (Nat × Json) :=
  match translateMessagesRequest body with
  | .error e => [(500, errorBody e)]
  | .ok _ =>
    match backend with
    | .httpError _ => []
    | .failure m => [(500, errorBody m)]
    | .ok resp =>
      match buildClaudeResponse idHex body resp with
      | .ok cr => [(200, cr)]
      | .error e => [(500, errorBody e)]

/-- Everything the non-streaming `handle_invoke_endpoint` path (200–374)
writes to the client: the same try/except skeleton as the messages
endpoint — `except requests.exceptions.HTTPError` (350–356) only logs,
`except Exception` (357–374) writes the 500 error body. -/
def handleInvokeWrites (idHex modelId : String) (body : Json) (backend : BackendResult) :
    List (Nat × Json) :=
  match translateInvokeRequest modelId body with
  | .error e => [(500, errorBody e)]
  | .ok _ =>
    match backend with
    | .httpError _ => []
    | .failure m => [(500, errorBody m)]
    | .ok resp =>
      match buildInvokeResponse idHex modelId resp with
      | .ok ar => [(200, ar)]
      | .error e => [(500, errorBody e)]

/-!  ## Streaming event translation (`handle_streaming_response`, 455–553)

Each backend stream event is dispatched on its single discriminating key;
outputs are the `(event-type, data)` pairs of the SSE records written as
`event: <type>\ndata: <json>\n\n`. `current_index` is the translator-owned
content-block counter, incremented on `contentBlockStop`. -/

/-- The `message_start` payload (lines 467–482). -/
def messageStartJson (idHex modelId : String) : Json :=
  .obj [("type", .str "message_start"),
        ("message", .obj
          [("id", .str ("msg_" ++ idHex)),
           ("type", .str "message"),
           ("role", .str "assistant"),
           ("content", .arr []),
           ("model", .str modelId),
           ("stop_reason", .null),
           ("stop_sequence", .null),
           ("usage", .obj [("input_tokens", .num 0), ("output_tokens", .num 0)])])]

/-- One iteration of the `for event in response['stream']` loop: returns
the updated block index and the SSE records written for this event. -/
def streamEventWrites (idHex modelId : String) (idx : Nat) (event : Json) :
    Except String (Nat × List (String × Json)) := do
  if ← pyContains event "messageStart" then
    return (idx, [("message_start", messageStartJson idHex modelId)])
  else if ← pyContains event "contentBlockStart" then
    return (idx, [("content_block_start", .obj
      [("type", .str "content_block_start"),
       ("index", .num idx),
       ("content_block", .obj [("type", .str "text"), ("text", .str "")])])])
  else if ← pyContains event "contentBlockDelta" then
    let cbd ← event.index "contentBlockDelta"
    let delta ← cbd.index "delta"
    let deltaText := delta.getD "text" (.str "")
    return (idx, [("content_block_delta", .obj
      [("type", .str "content_block_delta"),
       ("index", .num idx),
       ("delta", .obj [("type", .str "text_delta"), ("text", deltaText)])])])
  else if ← pyContains event "contentBlockStop" then
    return (idx + 1, [("content_block_stop", .obj
      [("type", .str "content_block_stop"), ("index", .num idx)])])
  else if ← pyContains event "messageStop" then
    let ms ← event.index "messageStop"
    let stopReason := ms.getD "stopReason" (.str "end_turn")
    let deltaWrites : List (String × Json) ←
      if ← pyContains event "metadata" then do
        let md ← event.index "metadata"
        if ← pyContains md "usage" then do
          let usage ← md.index "usage"
          pure [("message_delta", .obj
            [("type", .str "message_delta"),
             ("delta", .obj [("stop_reason", stopReason), ("stop_sequence", .null)]),
             ("usage", .obj [("output_tokens", usage.getD "outputTokens" (.num 0))])])]
        else pure []
      else pure []
    return (idx, deltaWrites ++ [("message_stop", .obj [("type", .str "message_stop")])])
  else
    return (idx, [])

/-- The event loop from a given value of `current_index`. -/
def streamWritesFrom (idHex modelId : String) (idx : Nat) :
    List Json → Except String (List (String × Json))
  | [] => .ok []
  | ev :: rest => do
    let (idx', ws) ← streamEventWrites idHex modelId idx ev
    return ws ++ (← streamWritesFrom idHex modelId idx' rest)

/-- The whole event loop: SSE records written for a backend event list,
starting from `current_index = 0`. -/
def streamWrites (idHex modelId : String) (events : List Json) :
    Except String (List (String × Json)) :=
  streamWritesFrom idHex modelId 0 events

/-- The event loop as it actually writes: records are sent as each event
is processed, so an exception raised by event `n` leaves the records of
events `0..n-1` already on the wire. Returns those records and the raised
error, if any. -/
def streamWritesPartialFrom (idHex modelId : String) (idx : Nat) :
    List Json → List (String × Json) × Option String
  | [] => ([], none)
  | ev :: rest =>
    match streamEventWrites idHex modelId idx ev with
    | .error e => ([], some e)
    | .ok (idx', ws) =>
      let r := streamWritesPartialFrom idHex modelId idx' rest
      (ws ++ r.1, r.2)

/-- Everything `handle_streaming_response` (376–584) writes to the
client, given the backend outcome: `except requests.exceptions.HTTPError`
(564–568) only logs; `except Exception` (569–584) attempts one terminal
`error` SSE event, appended after whatever the loop already wrote; on a
parsed backend response the loop iterates `response['stream']`. -/
def handleStreamingWrites (idHex modelId : String) (backend : BackendResult) :
    List (String × Json) :=
  match backend with
  | .httpError _ => []
  | .failure m => [("error", errorBody m)]
  | .ok resp =>
    match resp.index "stream" with
    | .error e => [("error", errorBody e)]
    | .ok streamVal =>
      match pyIter streamVal with
      | .error e => [("error", errorBody e)]
      | .ok events =>
        let r := streamWritesPartialFrom idHex modelId 0 events
        match r.2 with
        | some e => r.1 ++ [("error", errorBody e)]
        | none => r.1

/-!  ## Model ID canonicalizer

Modelled from the spec: no canonicalizer exists in the repository's source
files; spec §4.1 specifies it. Strings are embedded as `List Char`.
-/

/-- Modelled from the spec: §4.1 step 1 — if the string contains `.`, drop
everything up to and including the last `.`. -/
def afterLastDot (l : List Char) : List Char :=
  (l.reverse.takeWhile (· ≠ '.')).reverse

/-- Modelled from the spec: §4.1 step 2 — truncate at the first `:`. -/
def beforeFirstColon (l : List Char) : List Char :=
  l.takeWhile (· ≠ ':')

/-- Modelled from the spec: §4.1 step 3 — strip one trailing
`-<eight digits>-<letter><digits>` date-version suffix (e.g.
`-20241022-v2`), as a single anchored substitution would. -/
def stripDateVersion (l : List Char) : List Char :=
  let r := l.reverse
  let ds := r.takeWhile Char.isDigit
  if ds.isEmpty then l
  else
    match r.drop ds.length with
    | c :: rest =>
      if c.isLower then
        match rest with
        | '-' :: rest2 =>
          if (rest2.take 8).length = 8 ∧ (rest2.take 8).all Char.isDigit then
            match rest2.drop 8 with
            | '-' :: rest3 => rest3.reverse
            | _ => l
          else l
        | _ => l
      else l
    | [] => l

/-- Modelled from the spec: §4.1 step 4 — the fixed long-form-to-short-form
family alias table ("a dotted multi-part version number collapsed to a
compact form"); data, not logic. -/
def aliasTable : List (List Char × List Char) :=
  [("claude-3-5-sonnet".toList, "claude-35-sonnet".toList)]

/-- Modelled from the spec: §4.1 step 4 applied. -/
def applyAliases (l : List Char) : List Char :=
  (aliasTable.lookup l).getD l

/-- Modelled from the spec: `canonicalize(modelId)` — §4.1 steps 1–4 in
strict order. Pure and total by construction. -/
def canonicalize (l : List Char) : List Char :=
  applyAliases (stripDateVersion (beforeFirstColon (afterLastDot l)))

/-!  ## The SSE chunk decoder of `handle_streaming_response` (412–442)

The decoder accumulates chunks in `buffer`, splits on `'\n'`, parses each
complete `data: `-prefixed line, and keeps the trailing incomplete line;
after the last chunk the remaining buffer is flushed the same way.
`json.loads` (success or failure on the payload text) is an abstract
`parse` parameter; a malformed payload is skipped.
-/

/-- Python `str.strip()` on a character list. -/
def pyStrip (l : List Char) : List Char :=
  ((l.dropWhile Char.isWhitespace).reverse.dropWhile Char.isWhitespace).reverse

/-- `line.strip()`, the `startswith('data: ')` test and the `[6:]` slice:
the candidate JSON text of one complete line. -/
def dataPayload (line : List Char) : Option (List Char) :=
  let t := pyStrip line
  if "data: ".toList.isPrefixOf t then some (t.drop 6) else none

/-- `buffer.split('\n')` on character lists (always non-empty, like
Python's `str.split`). -/
def splitNl : List Char → List (List Char)
  | [] => [[]]
  | c :: rest =>
    if c = '\n' then [] :: splitNl rest
    else
      match splitNl rest with
      | [] => [[c]]
      | p :: ps => (c :: p) :: ps

section Decoder

variable {E : Type} (parse : List Char → Option E)

/-- The event decoded from one complete line, if any: a non-`data: ` line
yields nothing, a `data: ` line whose payload fails to parse is skipped. -/
def lineEvent (line : List Char) : Option E :=
  (dataPayload line).bind parse

/-- One iteration of the `for chunk in ...` loop (419–434): append the
chunk, split, decode the complete lines, keep the last part as the new
buffer. -/
def feedChunk (buf chunk : List Char) : List Char × List E :=
  let parts := splitNl (buf ++ chunk)
  (parts.getLastD [], parts.dropLast.filterMap (lineEvent parse))

/-- The chunk loop over a whole chunk sequence. -/
def feedChunks (buf : List Char) : List (List Char) → List Char × List E
  | [] => (buf, [])
  | c :: cs =>
    let r1 := feedChunk parse buf c
    let r2 := feedChunks r1.1 cs
    (r2.1, r1.2 ++ r2.2)

/-- The full decoder (419–442): run the chunk loop from an empty buffer,
then flush the remaining buffer (436–442). -/
def decodeStream (chunks : List (List Char)) : List E :=
  let r := feedChunks parse [] chunks
  r.2 ++ (lineEvent parse r.1).toList

/-- Reference machine for the proofs: the same decoder driven one
character at a time, emitting each line as it is completed by a `'\n'`. -/
def charRun (buf : List Char) : List Char → List Char × List E
  | [] => (buf, [])
  | c :: cs =>
    if c = '\n' then
      let r := charRun [] cs
      (r.1, (lineEvent parse buf).toList ++ r.2)
    else charRun (buf ++ [c]) cs

end Decoder

/-!  ## `_translate_endpoint` (`custom_bedrock_provider.py`, 22–28) -/

/-- Python `str.replace(pat, rep)`: replace every occurrence of `pat`,
scanning left to right, non-overlapping. (For the empty pattern the
function is never used below; it returns the string unchanged.) -/
def replaceAll : List Char → List Char → List Char → List Char
  | [], _, _ => []
  | c :: cs, pat, rep =>
    if h : pat.isPrefixOf (c :: cs) ∧ pat ≠ [] then
      rep ++ replaceAll ((c :: cs).drop pat.length) pat rep
    else
      c :: replaceAll cs pat rep
termination_by s _ _ => s.length
decreasing_by
  · have hlen : pat.length ≤ (c :: cs).length :=
      (List.isPrefixOf_iff_prefix.mp h.1).length_le
    have hpos : 0 < pat.length := List.length_pos.mpr h.2
    simp only [List.length_drop]
    simp only [List.length_cons] at hlen ⊢
    omega
  · simp

/-- `'/invoke-with-response-stream'`. -/
def streamSuffix : List Char := "/invoke-with-response-stream".toList

/-- `'/converse-stream'`. -/
def streamRep : List Char := "/converse-stream".toList

/-- `'/invoke'`. -/
def invokeSuffix : List Char := "/invoke".toList

/-- `'/converse'`. -/
def converseRep : List Char := "/converse".toList

/-- The corrupted endpoint a naive `/invoke`-first replacement would
create. -/
def mixedSuffix : List Char := "/converse-with-response-stream".toList

/-- `_translate_endpoint(api_base)`. -/
def translate_endpoint (s : List Char) : List Char :=
  if seg streamSuffix s then replaceAll s streamSuffix streamRep
  else if seg invokeSuffix s then replaceAll s invokeSuffix converseRep
  else s

/-!  ## Fixtures and result predicates used by the theorems -/

/-- `e` is an `ok` result (the Python code did not raise). -/
def exceptOk {ε α : Type} (e : Except ε α) : Bool :=
  e matches .ok _

/-- The end-to-end scenario's client body
`{"messages":[{"role":"user","content":"hi"}]}`. -/
def scenarioBody : Json :=
  .obj [("messages", .arr [.obj [("role", .str "user"), ("content", .str "hi")]])]

/-- The `/v1/messages` translation of `scenarioBody`, written out. -/
def scenarioBedrockRequest : Json :=
  .obj [("modelId", .str "us.anthropic.claude-3-5-sonnet-20241022-v2:0"),
        ("messages", .arr [.obj [("role", .str "user"),
                                 ("content", .arr [.obj [("text", .str "hi")]])]]),
        ("inferenceConfig", .obj [("maxTokens", .num 4096),
                                  ("temperature", .num (7/10))])]

/-- The end-to-end scenario's backend response. -/
def scenarioResp : Json :=
  .obj [("output", .obj [("message", .obj [("content", .arr [.obj [("text", .str "hello")]])])]),
        ("stopReason", .str "end_turn"),
        ("usage", .obj [("inputTokens", .num 1), ("outputTokens", .num 1)])]

/-- A well-shaped backend response that simply lacks the `usage` object. -/
def respNoUsage : Json :=
  .obj [("output", .obj [("message", .obj [("content", .arr [.obj [("text", .str "hello")]])])]),
        ("stopReason", .str "end_turn")]

/-- A message whose list content holds only items the translator does not
recognize as text: a number and an image block. -/
def unrecognizedMsg : Json :=
  .obj [("role", .str "user"),
        ("content", .arr [.num 42, .obj [("type", .str "image"), ("source", .str "s")]])]

/-- Backend stream events for the structured mode. -/
def evMessageStart : Json := .obj [("messageStart", .obj [("role", .str "assistant")])]

def evContentBlockStart : Json := .obj [("contentBlockStart", .obj [("start", .obj [])])]

def evDelta (t : String) : Json :=
  .obj [("contentBlockDelta", .obj [("delta", .obj [("text", .str t)])])]

def evContentBlockStop : Json := .obj [("contentBlockStop", .obj [])]

def evMessageStop : Json := .obj [("messageStop", .obj [("stopReason", .str "end_turn")])]

/-- A malformed stream event: `event['contentBlockDelta']['delta']` raises
`KeyError` in the middle of the event loop. -/
def evBadDelta : Json := .obj [("contentBlockDelta", .obj [])]

/-- A content item raising `KeyError` inside translation: an object whose
`type` is `'text'` but which lacks the `'text'` key. -/
def itemBad (item : Json) : Bool :=
  match item with
  | .obj fs => (fs.lookup "type" matches some (.str "text")) && (fs.lookup "text").isNone
  | _ => false

/-- A content value on which the conversion raises. -/
def contentBad (content : Json) : Bool :=
  match content with
  | .arr items => items.any itemBad
  | _ => false

/-- A message on which the conversion raises: not a dict, or missing
`role` or `content`, or a raising content value. -/
def msgBad (msg : Json) : Bool :=
  match msg with
  | .obj fs =>
    (fs.lookup "role").isNone ||
      (match fs.lookup "content" with
       | none => true
       | some c => contentBad c)
  | _ => true

/-- A content item the translator recognizes (and keeps) as text: a bare
string, or an object whose `type` is `'text'`. -/
def emitsItem (item : Json) : Bool :=
  match item with
  | .str _ => true
  | .obj fs => (fs.lookup "type" matches some (.str "text"))
  | _ => false

/-!  # Theorems -/

/-- C1 (counterexample): for the backend event sequence
`[start, delta("a"), delta("b"), stop]` the translator emits only
`message_start, content_block_delta("a"), content_block_delta("b"),
message_stop` — no `content_block_start` and no `content_block_stop` —
so the claimed six-event output is not produced. -/
theorem c1_streaming_order_counterexample :
    (streamWrites "0" "m" [evMessageStart, evDelta "a", evDelta "b", evMessageStop]).map
        (List.map Prod.fst) =
      .ok ["message_start", "content_block_delta", "content_block_delta", "message_stop"] ∧
    (streamWrites "0" "m" [evMessageStart, evDelta "a", evDelta "b", evMessageStop]).map
        (List.map Prod.fst) ≠
      .ok ["message_start", "content_block_start", "content_block_delta",
           "content_block_delta", "content_block_stop", "message_stop"] := by
  refine ⟨rfl, fun hc => ?_⟩
  rw [show (streamWrites "0" "m" [evMessageStart, evDelta "a", evDelta "b", evMessageStop]).map
        (List.map Prod.fst) =
      .ok ["message_start", "content_block_delta", "content_block_delta", "message_stop"]
    from rfl] at hc
  exact absurd (Except.ok.inj hc) (by decide)

/-- C1 (amended): for the backend event sequence
`[messageStart, contentBlockStart, delta("a"), delta("b"),
contentBlockStop, messageStop]` the client receives exactly
`message_start, content_block_start, content_block_delta("a"),
content_block_delta("b"), content_block_stop, message_stop`, in order,
with `index = 0` on every content_block event. -/
theorem c1_streaming_order (idHex modelId : String) :
    streamWrites idHex modelId
      [evMessageStart, evContentBlockStart, evDelta "a", evDelta "b",
       evContentBlockStop, evMessageStop] =
    .ok [("message_start", messageStartJson idHex modelId),
         ("content_block_start", .obj
           [("type", .str "content_block_start"), ("index", .num 0),
            ("content_block", .obj [("type", .str "text"), ("text", .str "")])]),
         ("content_block_delta", .obj
           [("type", .str "content_block_delta"), ("index", .num 0),
            ("delta", .obj [("type", .str "text_delta"), ("text", .str "a")])]),
         ("content_block_delta", .obj
           [("type", .str "content_block_delta"), ("index", .num 0),
            ("delta", .obj [("type", .str "text_delta"), ("text", .str "b")])]),
         ("content_block_stop", .obj
           [("type", .str "content_block_stop"), ("index", .num 0)]),
         ("message_stop", .obj [("type", .str "message_stop")])] := rfl

/-- C2 (counterexample): for a client body lacking `temperature`, both
translation paths emit an `inferenceConfig` that does contain a
`temperature` key, bound to the substituted default `0.7`. -/
theorem c2_null_omission_counterexample :
    (translateMessagesRequest scenarioBody).map
        (fun r => ((r.lookup "inferenceConfig").bind (fun ic => ic.lookup "temperature")).isSome) =
      .ok true ∧
    (translateMessagesRequest scenarioBody).map
        (fun r => (r.lookup "inferenceConfig").bind (fun ic => ic.lookup "temperature")) =
      .ok (some (.num (7/10))) ∧
    (translateInvokeRequest "m" scenarioBody).map
        (fun r => (r.lookup "inferenceConfig").bind (fun ic => ic.lookup "temperature")) =
      .ok (some (.num (7/10))) := ⟨rfl, rfl, rfl⟩

/-- C3 (counterexample): a body with no `messages` field translates
successfully (it is defaulted to the empty list), and a body whose message
has a `role` but no `content` fails — so translation does not fail iff
`messages` is absent or a role is missing. -/
theorem c3_malformed_request_counterexample :
    exceptOk (translateMessagesRequest (.obj [])) = true ∧
    exceptOk (translateMessagesRequest
      (.obj [("messages", .arr [.obj [("role", .str "user")]])])) = false := ⟨rfl, rfl⟩

/-- C5: posting `{"messages":[{"role":"user","content":"hi"}]}` to
`/v1/messages` with the backend returning the scenario response writes a
single 200 response whose `role` is `assistant`, `content` is `hello`,
`stop_reason` is `end_turn` and usage is 1/1 input/output tokens. -/
theorem c5_end_to_end (idHex : String) :
    handleMessagesWrites idHex scenarioBody (.ok scenarioResp) =
      [(200, .obj
        [("id", .str ("msg_" ++ idHex)),
         ("type", .str "message"),
         ("role", .str "assistant"),
         ("content", .str "hello"),
         ("model", .str "claude-3-5-sonnet-20241022"),
         ("stop_reason", .str "end_turn"),
         ("stop_sequence", .null),
         ("usage", .obj [("input_tokens", .num 1), ("output_tokens", .num 1)])])] := rfl

/-- C6 (counterexample): a backend response with a well-formed
`output.message.content[0].text` but no `usage` object does not translate
with token counts defaulted to 0 — translation raises instead
(`response['usage']` has no default). -/
theorem c6_response_defaults_counterexample :
    exceptOk (buildClaudeResponse "0" scenarioBody respNoUsage) = false := rfl

/-- C7 (counterexample): a message whose list content contains only
unrecognized items (a number and an image block) translates to a backend
message with zero content blocks. -/
theorem c7_nonempty_content_counterexample :
    (translateMessagesRequest (.obj [("messages", .arr [unrecognizedMsg])])).map
        (fun r => r.lookup "messages") =
      .ok (some (.arr [.obj [("role", .str "user"), ("content", .arr [])]])) := rfl

/-- C4 (counterexample): when the backend transport reports an HTTP error
(`requests.exceptions.HTTPError`), all three handlers —
`handle_messages_endpoint`, the non-streaming `handle_invoke_endpoint`
path, and `handle_streaming_response` — write nothing at all to the
client: their HTTPError except clauses only log. -/
theorem c4_error_response_counterexample :
    handleMessagesWrites "0" scenarioBody (.httpError "500 Server Error") = [] ∧
    handleInvokeWrites "0" "m" scenarioBody (.httpError "500 Server Error") = [] ∧
    handleStreamingWrites "0" "m" (.httpError "500 Server Error") = [] := ⟨rfl, rfl, rfl⟩

/-!  ## Helper lemmas shared by the amended theorems -/

theorem exceptOk_convertItem (item : Json) : exceptOk (convertItem item) = !itemBad item := by
  cases item with
  | obj fs =>
    simp only [convertItem, itemBad]
    cases hty : fs.lookup "type" with
    | none => simp [exceptOk]
    | some t =>
      cases t with
      | str s =>
        by_cases hs : s = "text"
        · subst hs
          cases htx : fs.lookup "text" <;> simp [exceptOk, htx]
        · simp [exceptOk, hs]
      | null => simp [exceptOk]
      | bool b => simp [exceptOk]
      | num q => simp [exceptOk]
      | arr xs => simp [exceptOk]
      | obj gs => simp [exceptOk]
  | null => rfl
  | bool b => rfl
  | num q => rfl
  | str s => rfl
  | arr xs => rfl

theorem exceptOk_convertItems (items : List Json) :
    exceptOk (convertItems items) = !items.any itemBad := by
  induction items with
  | nil => rfl
  | cons item rest ih =>
    have h := exceptOk_convertItem item
    simp only [convertItems, List.any_cons]
    cases hci : convertItem item with
    | error e =>
      rw [hci] at h
      simp only [exceptOk] at h
      have hib : itemBad item = true := by
        cases hb : itemBad item
        · rw [hb] at h; exact absurd h (by decide)
        · rfl
      simp [exceptOk, hib]
    | ok ob =>
      rw [hci] at h
      simp only [exceptOk] at h
      have hib : itemBad item = false := by
        cases hb : itemBad item
        · rfl
        · rw [hb] at h; exact absurd h (by decide)
      rw [hib]
      simp only [Bool.false_or]
      cases ob with
      | some b =>
        cases hcr : convertItems rest with
        | error e => rw [hcr] at ih; exact ih
        | ok bs => rw [hcr] at ih; exact ih
      | none => exact ih

theorem exceptOk_convertContent (content : Json) :
    exceptOk (convertContent content) = !contentBad content := by
  cases content with
  | arr items => simpa [convertContent, contentBad] using exceptOk_convertItems items
  | null => rfl
  | bool b => rfl
  | num q => rfl
  | str s => rfl
  | obj fs => rfl

theorem exceptOk_convertMessage (msg : Json) :
    exceptOk (convertMessage msg) = !msgBad msg := by
  cases msg with
  | obj fs =>
    simp only [convertMessage, msgBad, Json.index]
    cases hr : fs.lookup "role" with
    | none => simp [exceptOk]
    | some role =>
      cases hc : fs.lookup "content" with
      | none => simp [exceptOk]
      | some content =>
        simp only [Option.isNone_some, Bool.false_or]
        have h := exceptOk_convertContent content
        cases hcc : convertContent content with
        | error e =>
          rw [hcc] at h
          simp only [exceptOk] at h
          have : contentBad content = true := by
            cases hb : contentBad content
            · rw [hb] at h; exact absurd h (by decide)
            · rfl
          simp [exceptOk, this]
        | ok bs =>
          rw [hcc] at h
          simp only [exceptOk] at h
          have : contentBad content = false := by
            cases hb : contentBad content
            · rfl
            · rw [hb] at h; exact absurd h (by decide)
          simp [exceptOk, this]
  | null => rfl
  | bool b => rfl
  | num q => rfl
  | str s => rfl
  | arr xs => rfl

theorem exceptOk_convertMessageList (msgs : List Json) :
    exceptOk (convertMessageList msgs) = !msgs.any msgBad := by
  induction msgs with
  | nil => rfl
  | cons m ms ih =>
    have h := exceptOk_convertMessage m
    simp only [convertMessageList, List.any_cons]
    cases hcm : convertMessage m with
    | error e =>
      rw [hcm] at h
      simp only [exceptOk] at h
      have hmb : msgBad m = true := by
        cases hb : msgBad m
        · rw [hb] at h; exact absurd h (by decide)
        · rfl
      simp [exceptOk, hmb]
    | ok bm =>
      rw [hcm] at h
      simp only [exceptOk] at h
      have hmb : msgBad m = false := by
        cases hb : msgBad m
        · rfl
        · rw [hb] at h; exact absurd h (by decide)
      rw [hmb]
      simp only [Bool.false_or]
      cases hcr : convertMessageList ms with
      | error e => rw [hcr] at ih; exact ih
      | ok bms => rw [hcr] at ih; exact ih

theorem convertItem_some_emits (item b : Json) (h : convertItem item = .ok (some b)) :
    emitsItem item = true := by
  cases item with
  | obj fs =>
    simp only [convertItem] at h
    simp only [emitsItem]
    cases hty : fs.lookup "type" with
    | none => rw [hty] at h; exact absurd h (by simp)
    | some t =>
      rw [hty] at h
      cases t with
      | str s =>
        by_cases hs : s = "text"
        · subst hs; rfl
        · simp [hs] at h
      | null => simp at h
      | bool c => simp at h
      | num q => simp at h
      | arr xs => simp at h
      | obj gs => simp at h
  | str s => rfl
  | null => simp [convertItem] at h
  | bool c => simp [convertItem] at h
  | num q => simp [convertItem] at h
  | arr xs => simp [convertItem] at h

theorem convertItem_none_emits (item : Json) (h : convertItem item = .ok none) :
    emitsItem item = false := by
  cases item with
  | obj fs =>
    simp only [convertItem] at h
    simp only [emitsItem]
    cases hty : fs.lookup "type" with
    | none => simp [hty]
    | some t =>
      rw [hty] at h
      cases t with
      | str s =>
        by_cases hs : s = "text"
        · subst hs
          cases htx : fs.lookup "text" <;> rw [htx] at h <;> simp at h
        · simp [hty, hs]
      | null => simp [hty]
      | bool c => simp [hty]
      | num q => simp [hty]
      | arr xs => simp [hty]
      | obj gs => simp [hty]
  | str s => simp [convertItem] at h
  | null => rfl
  | bool c => rfl
  | num q => rfl
  | arr xs => rfl

theorem convertItems_nil_iff (items bs : List Json) (h : convertItems items = .ok bs) :
    bs = [] ↔ items.all (fun i => !emitsItem i) = true := by
  induction items generalizing bs with
  | nil =>
    simp only [convertItems] at h
    obtain rfl := Except.ok.inj h
    simp
  | cons item rest ih =>
    simp only [convertItems] at h
    cases hci : convertItem item with
    | error e => rw [hci] at h; exact absurd h (by simp)
    | ok ob =>
      rw [hci] at h
      cases ob with
      | some b =>
        cases hcr : convertItems rest with
        | error e => rw [hcr] at h; exact absurd h (by simp)
        | ok bs2 =>
          rw [hcr] at h
          obtain rfl := Except.ok.inj h
          simp [convertItem_some_emits item b hci]
      | none =>
        rw [List.all_cons, convertItem_none_emits item hci]
        simpa using ih bs h

theorem Json.index_ok_iff (j : Json) (k : String) (v : Json) :
    j.index k = .ok v ↔ j.lookup k = some v := by
  cases j with
  | obj fs =>
    simp only [Json.index, Json.lookup]
    cases fs.lookup k <;> simp
  | null => simp [Json.index, Json.lookup]
  | bool b => simp [Json.index, Json.lookup]
  | num q => simp [Json.index, Json.lookup]
  | str s => simp [Json.index, Json.lookup]
  | arr xs => simp [Json.index, Json.lookup]

theorem Json.index_lookup_none (j : Json) (k : String) (h : j.lookup k = none) :
    ∃ e, j.index k = .error e := by
  cases j with
  | obj fs => simp only [Json.lookup] at h; simp [Json.index, h]
  | null => simp [Json.index]
  | bool b => simp [Json.index]
  | num q => simp [Json.index]
  | str s => simp [Json.index]
  | arr xs => simp [Json.index]

/-!  ## Amended theorems -/

/-- C2 (amended): for any client body lacking `temperature`, both
translation paths put `temperature = 0.7` (the substituted default) into
`inferenceConfig` — defaults are substituted, not omitted. -/
theorem c2_null_omission_amended :
    ∀ (body r : Json), body.lookup "temperature" = none →
      (translateMessagesRequest body = .ok r →
        (r.lookup "inferenceConfig").bind (fun ic => ic.lookup "temperature") =
          some (.num (7/10))) ∧
      (∀ modelId, translateInvokeRequest modelId body = .ok r →
        (r.lookup "inferenceConfig").bind (fun ic => ic.lookup "temperature") =
          some (.num (7/10))) := by
  intro body r ht
  constructor
  · intro h
    unfold translateMessagesRequest at h
    cases hro : requireObj body <;> rw [hro] at h
    · exact absurd h (by simp)
    · cases hcm : convertMessages body <;> rw [hcm] at h
      · exact absurd h (by simp)
      · cases hsc : systemContent body <;> rw [hsc] at h <;>
          rw [← Except.ok.inj h] <;>
          · show some (Json.getD body "temperature" (.num (7/10))) = some (.num (7/10))
            simp [Json.getD, ht]
  · intro modelId h
    unfold translateInvokeRequest at h
    cases hro : requireObj body <;> rw [hro] at h
    · exact absurd h (by simp)
    · cases hcm : convertMessages body <;> rw [hcm] at h
      · exact absurd h (by simp)
      · cases hss : body.lookup "stop_sequences" <;> rw [hss] at h <;>
          cases hsc : systemContent body <;> rw [hsc] at h <;>
            rw [← Except.ok.inj h] <;>
            · show some (Json.getD body "temperature" (.num (7/10))) = some (.num (7/10))
              simp [Json.getD, ht]

/-- Witness for C2 (amended) at the scenario body. -/
theorem c2_null_omission_witness :
    scenarioBody.lookup "temperature" = none ∧
    (scenarioBedrockRequest.lookup "inferenceConfig").bind
      (fun ic => ic.lookup "temperature") = some (.num (7/10)) :=
  ⟨rfl, (c2_null_omission_amended scenarioBody scenarioBedrockRequest rfl).1 rfl⟩

/-- C3 (amended): an absent `messages` field is defaulted to the empty
list and translation succeeds; for a JSON-object body whose `messages` is
an array, translation fails exactly when some message is bad — not a JSON
object, or lacking `role`, or lacking `content`, or carrying an array
content with an object item whose `type` is `'text'` but without a `'text'`
key. Unrecognized item shapes are skipped without error. -/
theorem c3_malformed_request_amended :
    ∀ (fs : List (String × Json)) (msgs : List Json),
      ((Json.obj fs).lookup "messages" = some (.arr msgs) ∨
       ((Json.obj fs).lookup "messages" = none ∧ msgs = [])) →
      exceptOk (translateMessagesRequest (.obj fs)) = !msgs.any msgBad ∧
      ∀ modelId, exceptOk (translateInvokeRequest modelId (.obj fs)) = !msgs.any msgBad := by
  intro fs msgs hm
  have hcm : convertMessages (.obj fs) = convertMessageList msgs := by
    unfold convertMessages
    rcases hm with h | ⟨h, rfl⟩
    · simp [Json.getD, h, pyIter]
    · simp [Json.getD, h, pyIter]
  have hok := exceptOk_convertMessageList msgs
  constructor
  · unfold translateMessagesRequest
    rw [show requireObj (.obj fs) = .ok () from rfl, hcm]
    cases hml : convertMessageList msgs with
    | error e => rw [hml] at hok; exact hok
    | ok bms =>
      rw [hml] at hok
      cases hsc : systemContent (.obj fs) <;> exact hok
  · intro modelId
    unfold translateInvokeRequest
    rw [show requireObj (.obj fs) = .ok () from rfl, hcm]
    cases hml : convertMessageList msgs with
    | error e => rw [hml] at hok; exact hok
    | ok bms =>
      rw [hml] at hok
      cases hss : (Json.obj fs).lookup "stop_sequences" <;>
        cases hsc : systemContent (.obj fs) <;> exact hok

/-- Witness for C3 (amended) at the scenario body. -/
theorem c3_malformed_request_witness :
    exceptOk (translateMessagesRequest
        (.obj [("messages", .arr [.obj [("role", .str "user"), ("content", .str "hi")]])])) =
      !([Json.obj [("role", .str "user"), ("content", .str "hi")]].any msgBad) :=
  (c3_malformed_request_amended
    [("messages", .arr [.obj [("role", .str "user"), ("content", .str "hi")]])]
    [.obj [("role", .str "user"), ("content", .str "hi")]] (Or.inl rfl)).1

/-- On a fully successful event loop the incremental write model agrees
with the all-or-nothing one, with no raised error. -/
theorem streamWritesPartialFrom_of_ok (idHex modelId : String) :
    ∀ (events : List Json) (idx : Nat) (ws : List (String × Json)),
      streamWritesFrom idHex modelId idx events = .ok ws →
      streamWritesPartialFrom idHex modelId idx events = (ws, none) := by
  intro events
  induction events with
  | nil =>
    intro idx ws h
    simp only [streamWritesFrom] at h
    obtain rfl := Except.ok.inj h
    rfl
  | cons ev rest ih =>
    intro idx ws h
    simp only [streamWritesFrom, bind, Except.bind] at h
    cases hev : streamEventWrites idHex modelId idx ev with
    | error e => rw [hev] at h; exact absurd h (by simp)
    | ok p =>
      rw [hev] at h
      obtain ⟨idx2, ws1⟩ := p
      simp only [] at h
      cases hrest : streamWritesFrom idHex modelId idx2 rest with
      | error e => rw [hrest] at h; exact absurd h (by simp)
      | ok wsr =>
        rw [hrest] at h
        simp only [pure, Except.pure] at h
        obtain rfl := Except.ok.inj h
        simp only [streamWritesPartialFrom, hev, ih idx2 wsr hrest]

/-- C4 (amended): on the two non-streaming endpoints, a handler writes
nothing exactly when translation succeeded and the backend call raised
`requests.exceptions.HTTPError` (those clauses only log), and every write
performed is either the 200 success response or the 500
`{type:'error',error:{type:'api_error',...}}` body; the streaming handler
answers any non-HTTP failure with a best-effort terminal `error` SSE
event — appended after whatever records the event loop already sent when
the failure arose mid-stream — but a backend-transport HTTPError again
produces no write at all. -/
theorem c4_error_response_amended :
    ∀ (idHex modelId : String) (body : Json) (backend : BackendResult),
      (handleMessagesWrites idHex body backend = [] ↔
        exceptOk (translateMessagesRequest body) = true ∧
          ∃ d, backend = BackendResult.httpError d) ∧
      (handleInvokeWrites idHex modelId body backend = [] ↔
        exceptOk (translateInvokeRequest modelId body) = true ∧
          ∃ d, backend = BackendResult.httpError d) ∧
      (∀ w, w ∈ handleMessagesWrites idHex body backend →
        (∃ cr, w = (200, cr)) ∨ ∃ m, w = (500, errorBody m)) ∧
      (∀ w, w ∈ handleInvokeWrites idHex modelId body backend →
        (∃ cr, w = (200, cr)) ∨ ∃ m, w = (500, errorBody m)) ∧
      (∀ d, handleStreamingWrites idHex modelId (.httpError d) = []) ∧
      (∀ m, handleStreamingWrites idHex modelId (.failure m) = [("error", errorBody m)]) ∧
      (∀ events pre e, streamWritesPartialFrom idHex modelId 0 events = (pre, some e) →
        handleStreamingWrites idHex modelId (.ok (.obj [("stream", .arr events)])) =
          pre ++ [("error", errorBody e)]) ∧
      (∀ events ws, streamWrites idHex modelId events = .ok ws →
        handleStreamingWrites idHex modelId (.ok (.obj [("stream", .arr events)])) = ws) := by
  intro idHex modelId body backend
  refine ⟨?_, ?_, ?_, ?_, fun d => rfl, fun m => rfl, ?_, ?_⟩
  · cases ht : translateMessagesRequest body with
    | error e => simp [handleMessagesWrites, ht, exceptOk]
    | ok breq =>
      cases backend with
      | httpError d => simp [handleMessagesWrites, ht, exceptOk]
      | failure m => simp [handleMessagesWrites, ht, exceptOk]
      | ok resp =>
        cases hb : buildClaudeResponse idHex body resp with
        | error e => simp [handleMessagesWrites, ht, hb, exceptOk]
        | ok cr => simp [handleMessagesWrites, ht, hb, exceptOk]
  · cases ht : translateInvokeRequest modelId body with
    | error e => simp [handleInvokeWrites, ht, exceptOk]
    | ok breq =>
      cases backend with
      | httpError d => simp [handleInvokeWrites, ht, exceptOk]
      | failure m => simp [handleInvokeWrites, ht, exceptOk]
      | ok resp =>
        cases hb : buildInvokeResponse idHex modelId resp with
        | error e => simp [handleInvokeWrites, ht, hb, exceptOk]
        | ok ar => simp [handleInvokeWrites, ht, hb, exceptOk]
  · intro w hw
    cases ht : translateMessagesRequest body with
    | error e =>
      simp only [handleMessagesWrites, ht] at hw
      simp at hw
      exact Or.inr ⟨e, hw⟩
    | ok breq =>
      cases backend with
      | httpError d => simp [handleMessagesWrites, ht] at hw
      | failure m =>
        simp only [handleMessagesWrites, ht] at hw
        simp at hw
        exact Or.inr ⟨m, hw⟩
      | ok resp =>
        cases hb : buildClaudeResponse idHex body resp with
        | error e =>
          simp only [handleMessagesWrites, ht, hb] at hw
          simp at hw
          exact Or.inr ⟨e, hw⟩
        | ok cr =>
          simp only [handleMessagesWrites, ht, hb] at hw
          simp at hw
          exact Or.inl ⟨cr, hw⟩
  · intro w hw
    cases ht : translateInvokeRequest modelId body with
    | error e =>
      simp only [handleInvokeWrites, ht] at hw
      simp at hw
      exact Or.inr ⟨e, hw⟩
    | ok breq =>
      cases backend with
      | httpError d => simp [handleInvokeWrites, ht] at hw
      | failure m =>
        simp only [handleInvokeWrites, ht] at hw
        simp at hw
        exact Or.inr ⟨m, hw⟩
      | ok resp =>
        cases hb : buildInvokeResponse idHex modelId resp with
        | error e =>
          simp only [handleInvokeWrites, ht, hb] at hw
          simp at hw
          exact Or.inr ⟨e, hw⟩
        | ok ar =>
          simp only [handleInvokeWrites, ht, hb] at hw
          simp at hw
          exact Or.inl ⟨ar, hw⟩
  · intro events pre e hp
    have hred : handleStreamingWrites idHex modelId (.ok (.obj [("stream", .arr events)])) =
        (let r := streamWritesPartialFrom idHex modelId 0 events
         match r.2 with
         | some e2 => r.1 ++ [("error", errorBody e2)]
         | none => r.1) := rfl
    rw [hred, hp]
  · intro events ws hws
    have hred : handleStreamingWrites idHex modelId (.ok (.obj [("stream", .arr events)])) =
        (let r := streamWritesPartialFrom idHex modelId 0 events
         match r.2 with
         | some e2 => r.1 ++ [("error", errorBody e2)]
         | none => r.1) := rfl
    rw [hred, streamWritesPartialFrom_of_ok idHex modelId events 0 ws hws]

/-- Witness for C4 (amended): a non-HTTP backend failure is answered with
the 500 error body; a stream failing at its second event has the terminal
`error` SSE event appended after the already-sent `message_start`; a
clean stream is forwarded unchanged. -/
theorem c4_error_response_witness :
    ((∃ cr, ((500 : Nat), errorBody "boom") = (200, cr)) ∨
      ∃ m, ((500 : Nat), errorBody "boom") = (500, errorBody m)) ∧
    handleStreamingWrites "0" "m" (.ok (.obj [("stream", .arr [evMessageStart, evBadDelta])])) =
      [("message_start", messageStartJson "0" "m"), ("error", errorBody "KeyError: delta")] ∧
    handleStreamingWrites "0" "m" (.ok (.obj [("stream", .arr [evMessageStart])])) =
      [("message_start", messageStartJson "0" "m")] :=
  ⟨(c4_error_response_amended "0" "m" scenarioBody (.failure "boom")).2.2.1
      (500, errorBody "boom") (List.mem_singleton.mpr rfl),
   (c4_error_response_amended "0" "m" scenarioBody (.failure "boom")).2.2.2.2.2.2.1
      [evMessageStart, evBadDelta] [("message_start", messageStartJson "0" "m")]
      "KeyError: delta" rfl,
   (c4_error_response_amended "0" "m" scenarioBody (.failure "boom")).2.2.2.2.2.2.2
      [evMessageStart] [("message_start", messageStartJson "0" "m")] rfl⟩

/-- C6 (amended): whenever either response translation succeeds,
`stopReason` maps to `stop_reason` with default `"end_turn"` and
`usage.inputTokens`/`usage.outputTokens` map to
`usage.input_tokens`/`usage.output_tokens` with default `0` — but a
backend response lacking the `usage` object altogether fails translation
instead of defaulting its token counts. -/
theorem c6_response_defaults_amended :
    ∀ (idHex modelId : String) (body resp out : Json),
      (resp.lookup "usage" = none →
        exceptOk (buildClaudeResponse idHex body resp) = false ∧
        exceptOk (buildInvokeResponse idHex modelId resp) = false) ∧
      (buildClaudeResponse idHex body resp = .ok out →
        (resp.lookup "stopReason" = none → out.lookup "stop_reason" = some (.str "end_turn")) ∧
        (∀ v, resp.lookup "stopReason" = some v → out.lookup "stop_reason" = some v) ∧
        (∀ u, resp.lookup "usage" = some u →
          (u.lookup "inputTokens" = none →
            (out.lookup "usage").bind (fun g => g.lookup "input_tokens") = some (.num 0)) ∧
          (∀ v, u.lookup "inputTokens" = some v →
            (out.lookup "usage").bind (fun g => g.lookup "input_tokens") = some v) ∧
          (u.lookup "outputTokens" = none →
            (out.lookup "usage").bind (fun g => g.lookup "output_tokens") = some (.num 0)) ∧
          (∀ v, u.lookup "outputTokens" = some v →
            (out.lookup "usage").bind (fun g => g.lookup "output_tokens") = some v))) ∧
      (buildInvokeResponse idHex modelId resp = .ok out →
        (resp.lookup "stopReason" = none → out.lookup "stop_reason" = some (.str "end_turn")) ∧
        (∀ v, resp.lookup "stopReason" = some v → out.lookup "stop_reason" = some v) ∧
        (∀ u, resp.lookup "usage" = some u →
          (u.lookup "inputTokens" = none →
            (out.lookup "usage").bind (fun g => g.lookup "input_tokens") = some (.num 0)) ∧
          (∀ v, u.lookup "inputTokens" = some v →
            (out.lookup "usage").bind (fun g => g.lookup "input_tokens") = some v) ∧
          (u.lookup "outputTokens" = none →
            (out.lookup "usage").bind (fun g => g.lookup "output_tokens") = some (.num 0)) ∧
          (∀ v, u.lookup "outputTokens" = some v →
            (out.lookup "usage").bind (fun g => g.lookup "output_tokens") = some v))) := by
  intro idHex modelId body resp out
  refine ⟨?_, ?_, ?_⟩
  · intro hu
    obtain ⟨e, he⟩ := Json.index_lookup_none resp "usage" hu
    constructor
    · unfold buildClaudeResponse
      cases hex : extractContentText resp with
      | error e2 => rfl
      | ok c => rw [he]; rfl
    · unfold buildInvokeResponse
      cases hex : invokeContentBlocks resp with
      | error e2 => rfl
      | ok bl => rw [he]; rfl
  · intro h
    unfold buildClaudeResponse at h
    cases hex : extractContentText resp with
    | error e2 => rw [hex] at h; exact absurd h (by simp)
    | ok c =>
      rw [hex] at h
      cases hus : resp.index "usage" with
      | error e2 => rw [hus] at h; exact absurd h (by simp)
      | ok usage =>
        rw [hus] at h
        obtain rfl := (Except.ok.inj h).symm
        have husl : resp.lookup "usage" = some usage := (Json.index_ok_iff resp "usage" usage).mp hus
        refine ⟨?_, ?_, ?_⟩
        · intro hsr
          show some (Json.getD resp "stopReason" (.str "end_turn")) = some (.str "end_turn")
          simp [Json.getD, hsr]
        · intro v hsr
          show some (Json.getD resp "stopReason" (.str "end_turn")) = some v
          simp [Json.getD, hsr]
        · intro u hu
          rw [husl] at hu
          obtain rfl := Option.some.inj hu
          refine ⟨?_, ?_, ?_, ?_⟩
          · intro hit
            show some (Json.getD usage "inputTokens" (.num 0)) = some (.num 0)
            simp [Json.getD, hit]
          · intro v hit
            show some (Json.getD usage "inputTokens" (.num 0)) = some v
            simp [Json.getD, hit]
          · intro hot
            show some (Json.getD usage "outputTokens" (.num 0)) = some (.num 0)
            simp [Json.getD, hot]
          · intro v hot
            show some (Json.getD usage "outputTokens" (.num 0)) = some v
            simp [Json.getD, hot]
  · intro h
    unfold buildInvokeResponse at h
    cases hex : invokeContentBlocks resp with
    | error e2 => rw [hex] at h; exact absurd h (by simp)
    | ok blocks =>
      rw [hex] at h
      cases hus : resp.index "usage" with
      | error e2 => rw [hus] at h; exact absurd h (by simp)
      | ok usage =>
        rw [hus] at h
        obtain rfl := (Except.ok.inj h).symm
        have husl : resp.lookup "usage" = some usage := (Json.index_ok_iff resp "usage" usage).mp hus
        refine ⟨?_, ?_, ?_⟩
        · intro hsr
          show some (Json.getD resp "stopReason" (.str "end_turn")) = some (.str "end_turn")
          simp [Json.getD, hsr]
        · intro v hsr
          show some (Json.getD resp "stopReason" (.str "end_turn")) = some v
          simp [Json.getD, hsr]
        · intro u hu
          rw [husl] at hu
          obtain rfl := Option.some.inj hu
          refine ⟨?_, ?_, ?_, ?_⟩
          · intro hit
            show some (Json.getD usage "inputTokens" (.num 0)) = some (.num 0)
            simp [Json.getD, hit]
          · intro v hit
            show some (Json.getD usage "inputTokens" (.num 0)) = some v
            simp [Json.getD, hit]
          · intro hot
            show some (Json.getD usage "outputTokens" (.num 0)) = some (.num 0)
            simp [Json.getD, hot]
          · intro v hot
            show some (Json.getD usage "outputTokens" (.num 0)) = some v
            simp [Json.getD, hot]

/-- Witness for C6 (amended): the usage-less response fails on both
paths. -/
theorem c6_response_defaults_witness :
    exceptOk (buildClaudeResponse "0" scenarioBody respNoUsage) = false ∧
    exceptOk (buildInvokeResponse "0" "m" respNoUsage) = false :=
  (c6_response_defaults_amended "0" "m" scenarioBody respNoUsage .null).1 rfl

/-- C7 (amended): a successfully translated message has an empty content
block list exactly when the client's content was an array none of whose
items is recognized as text (a bare string, or an object with
`type == 'text'`); string and fallback contents always yield one block. -/
theorem c7_nonempty_content_amended :
    ∀ (msg bm : Json), convertMessage msg = .ok bm →
      ∃ content blocks,
        msg.lookup "content" = some content ∧
        bm.lookup "content" = some (.arr blocks) ∧
        (blocks = [] ↔ ∃ items, content = .arr items ∧
          items.all (fun i => !emitsItem i) = true) := by
  intro msg bm h
  cases msg with
  | obj fs =>
    cases hr : fs.lookup "role" with
    | none => simp [convertMessage, Json.index, hr] at h
    | some role =>
      cases hc : fs.lookup "content" with
      | none => simp [convertMessage, Json.index, hr, hc] at h
      | some content =>
        simp only [convertMessage, Json.index, hr, hc] at h
        cases hcc : convertContent content with
        | error e => rw [hcc] at h; exact absurd h (by simp)
        | ok blocks =>
          rw [hcc] at h
          obtain rfl := (Except.ok.inj h).symm
          refine ⟨content, blocks, hc, rfl, ?_⟩
          cases content with
          | str s =>
            simp only [convertContent] at hcc
            obtain rfl := (Except.ok.inj hcc).symm
            simp
          | arr items =>
            simp only [convertContent] at hcc
            constructor
            · intro hb
              exact ⟨items, rfl, ((convertItems_nil_iff items blocks hcc).mp hb)⟩
            · rintro ⟨items2, hi, hall⟩
              cases Json.arr.inj hi
              exact (convertItems_nil_iff _ blocks hcc).mpr hall
          | null =>
            simp only [convertContent] at hcc
            obtain rfl := (Except.ok.inj hcc).symm
            simp
          | bool b =>
            simp only [convertContent] at hcc
            obtain rfl := (Except.ok.inj hcc).symm
            simp
          | num q =>
            simp only [convertContent] at hcc
            obtain rfl := (Except.ok.inj hcc).symm
            simp
          | obj gs =>
            simp only [convertContent] at hcc
            obtain rfl := (Except.ok.inj hcc).symm
            simp
  | null => exact absurd h (by simp [convertMessage, Json.index])
  | bool b => exact absurd h (by simp [convertMessage, Json.index])
  | num q => exact absurd h (by simp [convertMessage, Json.index])
  | str s => exact absurd h (by simp [convertMessage, Json.index])
  | arr xs => exact absurd h (by simp [convertMessage, Json.index])

/-- Witness for C7 (amended) at the all-unrecognized message. -/
theorem c7_nonempty_content_witness :
    ∃ content blocks,
      unrecognizedMsg.lookup "content" = some content ∧
      (Json.obj [("role", .str "user"), ("content", .arr [])]).lookup "content" =
        some (.arr blocks) ∧
      (blocks = [] ↔ ∃ items, content = .arr items ∧
        items.all (fun i => !emitsItem i) = true) :=
  c7_nonempty_content_amended unrecognizedMsg
    (.obj [("role", .str "user"), ("content", .arr [])]) rfl

/-!  ## Chunk invariance of the SSE decoder (C9) -/

theorem splitNl_ne_nil (l : List Char) : splitNl l ≠ [] := by
  cases l with
  | nil => simp [splitNl]
  | cons c rest =>
    simp only [splitNl]
    by_cases hc : c = '\n'
    · simp [hc]
    · simp only [hc, if_false]
      cases splitNl rest <;> simp

theorem splitNl_no_nl (l : List Char) (h : '\n' ∉ l) : splitNl l = [l] := by
  induction l with
  | nil => rfl
  | cons c rest ih =>
    simp only [List.mem_cons, not_or] at h
    have hc : c ≠ '\n' := Ne.symm h.1
    simp [splitNl, hc, ih h.2]

theorem splitNl_append_no_nl (b t : List Char) (hb : '\n' ∉ b)
    (p : List Char) (ps : List (List Char)) (ht : splitNl t = p :: ps) :
    splitNl (b ++ t) = (b ++ p) :: ps := by
  induction b with
  | nil => simpa using ht
  | cons c b' ih =>
    simp only [List.mem_cons, not_or] at hb
    have hc : c ≠ '\n' := Ne.symm hb.1
    simp [List.cons_append, splitNl, hc, ih hb.2]

theorem filterMap_cons_toList {E : Type} (f : List Char → Option E) (a : List Char)
    (l : List (List Char)) :
    List.filterMap f (a :: l) = (f a).toList ++ List.filterMap f l := by
  cases h : f a <;> simp [List.filterMap_cons, h]

theorem charRun_fst_no_nl {E : Type} (parse : List Char → Option E) (l : List Char) :
    ∀ buf, '\n' ∉ buf → '\n' ∉ (charRun parse buf l).1 := by
  induction l with
  | nil => intro buf hb; simpa [charRun] using hb
  | cons c cs ih =>
    intro buf hb
    by_cases hc : c = '\n'
    · subst hc
      simp only [charRun, if_pos rfl]
      exact ih [] (by simp)
    · simp only [charRun, hc, if_false]
      exact ih (buf ++ [c]) (by simp [hb, Ne.symm hc])

theorem feedChunk_eq_charRun {E : Type} (parse : List Char → Option E) (chunk : List Char) :
    ∀ buf, '\n' ∉ buf → feedChunk parse buf chunk = charRun parse buf chunk := by
  induction chunk with
  | nil =>
    intro buf hb
    simp [feedChunk, charRun, splitNl_no_nl buf hb]
  | cons c cs ih =>
    intro buf hb
    by_cases hc : c = '\n'
    · subst hc
      have hsp : splitNl ('\n' :: cs) = [] :: splitNl cs := by simp [splitNl]
      have := splitNl_append_no_nl buf ('\n' :: cs) hb [] (splitNl cs) hsp
      simp only [feedChunk, this, List.append_nil]
      obtain ⟨p, ps, hps⟩ : ∃ p ps, splitNl cs = p :: ps := by
        cases hsc : splitNl cs with
        | nil => exact absurd hsc (splitNl_ne_nil cs)
        | cons p ps => exact ⟨p, ps, rfl⟩
      have hrest := ih [] (by simp)
      simp only [charRun, if_pos rfl]
      rw [← hrest]
      simp only [feedChunk, List.nil_append]
      rw [hps]
      cases hpse : ps with
      | nil =>
        simp [List.getLastD, List.dropLast, filterMap_cons_toList, lineEvent]
      | cons q qs =>
        simp [List.getLastD_cons, List.dropLast_cons_of_ne_nil,
          filterMap_cons_toList, lineEvent]
    · have harr : buf ++ c :: cs = (buf ++ [c]) ++ cs := by simp
      have hb2 : '\n' ∉ buf ++ [c] := by simp [hb, Ne.symm hc]
      calc feedChunk parse buf (c :: cs)
          = feedChunk parse (buf ++ [c]) cs := by
            simp only [feedChunk, harr]
        _ = charRun parse (buf ++ [c]) cs := ih (buf ++ [c]) hb2
        _ = charRun parse buf (c :: cs) := by
            simp only [charRun, hc, if_false]

theorem charRun_append {E : Type} (parse : List Char → Option E) (a : List Char) :
    ∀ (buf b : List Char),
      charRun parse buf (a ++ b) =
        ((charRun parse (charRun parse buf a).1 b).1,
         (charRun parse buf a).2 ++ (charRun parse (charRun parse buf a).1 b).2) := by
  induction a with
  | nil => intro buf b; simp [charRun]
  | cons c cs ih =>
    intro buf b
    by_cases hc : c = '\n'
    · subst hc
      have h1 : ∀ (t : List Char), charRun parse buf ('\n' :: t) =
          ((charRun parse [] t).1,
           (lineEvent parse buf).toList ++ (charRun parse [] t).2) := by
        intro t
        simp [charRun]
      rw [List.cons_append, h1, h1, ih [] b]
      simp [List.append_assoc]
    · simp only [List.cons_append, charRun, hc, if_false]
      exact ih (buf ++ [c]) b

theorem feedChunks_eq_charRun {E : Type} (parse : List Char → Option E)
    (chunks : List (List Char)) :
    ∀ buf, '\n' ∉ buf →
      feedChunks parse buf chunks = charRun parse buf chunks.flatten := by
  induction chunks with
  | nil => intro buf hb; simp [feedChunks, charRun]
  | cons c cs ih =>
    intro buf hb
    simp only [feedChunks, List.flatten_cons]
    rw [feedChunk_eq_charRun parse c buf hb]
    rw [ih (charRun parse buf c).1 (charRun_fst_no_nl parse c buf hb)]
    rw [charRun_append parse c buf cs.flatten]

/-- The decoder's output depends only on the concatenation of the fed
chunks. -/
theorem decodeStream_eq_flatten {E : Type} (parse : List Char → Option E)
    (chunks : List (List Char)) :
    decodeStream parse chunks =
      (charRun parse [] chunks.flatten).2 ++
        (lineEvent parse (charRun parse [] chunks.flatten).1).toList := by
  unfold decodeStream
  rw [feedChunks_eq_charRun parse chunks [] (by simp)]

/-- C9: for every backend stream payload and every payload parser
(modelling `json.loads` success/failure), feeding the SSE decoder the
payload one character at a time yields the identical decoded event
sequence as feeding it the whole payload as a single chunk. -/
theorem c9_chunk_invariance {E : Type} (parse : List Char → Option E) (payload : List Char) :
    decodeStream parse (payload.map fun c => [c]) = decodeStream parse [payload] := by
  rw [decodeStream_eq_flatten, decodeStream_eq_flatten]
  have h1 : (payload.map fun c => [c]).flatten = payload := by
    induction payload with
    | nil => rfl
    | cons c cs ih => simp [ih]
  have h2 : ([payload] : List (List Char)).flatten = payload := by simp
  rw [h1, h2]

/-!  ## Canonicalizer properties (C8) -/

theorem not_dot_afterLastDot (l : List Char) : '.' ∉ afterLastDot l := by
  intro h
  rw [afterLastDot, List.mem_reverse] at h
  have := List.mem_takeWhile_imp h
  simp at this

theorem not_colon_beforeFirstColon (l : List Char) : ':' ∉ beforeFirstColon l := by
  intro h
  have := List.mem_takeWhile_imp h
  simp at this

theorem mem_beforeFirstColon (l : List Char) (c : Char) (h : c ∈ beforeFirstColon l) :
    c ∈ l := (List.takeWhile_sublist _).mem h

theorem mem_stripDateVersion (l : List Char) (c : Char) (h : c ∈ stripDateVersion l) :
    c ∈ l := by
  simp only [stripDateVersion] at h
  split at h
  · exact h
  · split at h
    · split at h
      · split at h
        · split at h
          · split at h
            · rename_i c1 rest2 heq1 hdig rest31 heq3
              rw [List.mem_reverse] at h
              have h4 : c ∈ List.drop 8 c1 := heq3 ▸ List.mem_cons_of_mem _ h
              have h5 : c ∈ c1 := List.mem_of_mem_drop h4
              have h6 : c ∈ List.drop (List.takeWhile Char.isDigit l.reverse).length l.reverse := by
                rw [rest2]
                exact List.mem_cons_of_mem _ (List.mem_cons_of_mem _ h5)
              have h7 := List.mem_of_mem_drop h6
              simpa using h7
            · exact h
          · exact h
        · exact h
      · exact h
    · exact h

theorem afterLastDot_no_dot_id (l : List Char) (h : '.' ∉ l) : afterLastDot l = l := by
  rw [afterLastDot]
  rw [List.takeWhile_eq_self_iff.mpr]
  · exact List.reverse_reverse l
  · intro x hx
    simp only [List.mem_reverse] at hx
    simp
    exact fun hd => h (hd ▸ hx)

theorem beforeFirstColon_no_colon_id (l : List Char) (h : ':' ∉ l) :
    beforeFirstColon l = l := by
  rw [beforeFirstColon, List.takeWhile_eq_self_iff.mpr]
  intro x hx
  simp
  exact fun hd => h (hd ▸ hx)

theorem canonicalize_fixed (l : List Char) (h1 : '.' ∉ l) (h2 : ':' ∉ l)
    (h3 : stripDateVersion l = l) (h4 : List.lookup l aliasTable = none) :
    canonicalize l = l := by
  unfold canonicalize
  rw [afterLastDot_no_dot_id l h1, beforeFirstColon_no_colon_id l h2, h3]
  unfold applyAliases
  rw [h4]
  rfl

/-- C8 (counterexample): the canonicalizer is not idempotent on every
string: a stacked date-version suffix is stripped once per application, so
`a-20241022-v2-20241022-v2` canonicalizes to `a-20241022-v2`, which
canonicalizes further to `a`. -/
theorem c8_canonicalize_counterexample :
    canonicalize (canonicalize "a-20241022-v2-20241022-v2".toList) ≠
      canonicalize "a-20241022-v2-20241022-v2".toList := by decide

/-- C8 (amended): `canonicalize` is a pure total function;
it maps `us.anthropic.claude-3-5-sonnet-20241022-v2:0` to the short family
name `claude-35-sonnet` (no region, date-version, or revision suffix
remaining); a string containing none of the recognized separators (no `.`,
no `:`, no trailing date-version suffix, not an alias-table key) is
returned unchanged; and `canonicalize (canonicalize x) = canonicalize x`
for every `x` whose canonical form does not itself still end in a
date-version suffix (stacked suffixes are the only exception to
idempotence). -/
theorem c8_canonicalize_amended :
    canonicalize "us.anthropic.claude-3-5-sonnet-20241022-v2:0".toList =
      "claude-35-sonnet".toList ∧
    (∀ l : List Char, '.' ∉ l → ':' ∉ l → stripDateVersion l = l →
      List.lookup l aliasTable = none → canonicalize l = l) ∧
    (∀ l : List Char, stripDateVersion (canonicalize l) = canonicalize l →
      canonicalize (canonicalize l) = canonicalize l) := by
  refine ⟨by decide, canonicalize_fixed, ?_⟩
  intro l hstrip
  cases halias : List.lookup (stripDateVersion (beforeFirstColon (afterLastDot l))) aliasTable with
  | some v =>
    have hv : v = "claude-35-sonnet".toList := by
      simp only [aliasTable, List.lookup] at halias
      split at halias
      · exact (Option.some.inj halias).symm
      · exact absurd halias (by simp)
    have hc : canonicalize l = v := by
      unfold canonicalize applyAliases
      rw [halias]
      rfl
    rw [hc, hv]
    decide
  | none =>
    have hc : canonicalize l = stripDateVersion (beforeFirstColon (afterLastDot l)) := by
      unfold canonicalize applyAliases
      rw [halias]
      rfl
    rw [hc] at hstrip ⊢
    refine canonicalize_fixed _ ?_ ?_ hstrip ?_
    · intro hd
      exact not_dot_afterLastDot l
        (mem_beforeFirstColon _ _ (mem_stripDateVersion _ _ hd))
    · intro hd
      exact not_colon_beforeFirstColon (afterLastDot l)
        (mem_stripDateVersion _ _ hd)
    · exact halias

/-- Witness for C8 (amended): idempotence at the spec's example model id,
and pass-through on a separator-free string. -/
theorem c8_canonicalize_witness :
    canonicalize (canonicalize "us.anthropic.claude-3-5-sonnet-20241022-v2:0".toList) =
      canonicalize "us.anthropic.claude-3-5-sonnet-20241022-v2:0".toList ∧
    canonicalize "gpt4".toList = "gpt4".toList :=
  ⟨c8_canonicalize_amended.2.2 _ (by decide),
   c8_canonicalize_amended.2.1 _ (by decide) (by decide) (by decide) (by decide)⟩

/-!  ## `_translate_endpoint` properties (C10)

The substantive fact is that the replacements never manufacture the
corrupted `/converse-with-response-stream` endpoint: an occurrence of it
in the output would have to lie inside untouched text (so it was already
in the input), or straddle an inserted replacement, which the
suffix/prefix analysis below excludes.
-/

theorem seg_eq_true_iff (needle hay : List Char) : seg needle hay = true ↔ needle <:+: hay := by
  rw [seg, List.any_eq_true]
  constructor
  · rintro ⟨t, ht, hp⟩
    rw [List.mem_tails] at ht
    exact List.infix_iff_prefix_suffix.mpr ⟨t, List.isPrefixOf_iff_prefix.mp hp, ht⟩
  · intro h
    obtain ⟨t, hp, hs⟩ := List.infix_iff_prefix_suffix.mp h
    exact ⟨t, (List.mem_tails _ _).mpr hs, List.isPrefixOf_iff_prefix.mpr hp⟩

theorem prefix_append_cases {A B C : List Char} (h : A <+: B ++ C) :
    A <+: B ∨ (B <+: A ∧ A.drop B.length <+: C) := by
  obtain ⟨t, ht⟩ := h
  rcases List.append_eq_append_iff.mp ht with ⟨a', ha1, ha2⟩ | ⟨c', hc1, hc2⟩
  · exact Or.inl ⟨a', ha1.symm⟩
  · refine Or.inr ⟨⟨c', hc1.symm⟩, ?_⟩
    rw [hc1, List.drop_left]
    exact ⟨t, hc2.symm⟩

theorem infix_append_cases {T A B : List Char} (h : T <:+: A ++ B) :
    T <:+: A ∨ T <:+: B ∨
      ∃ T1 T2, T = T1 ++ T2 ∧ T1 ≠ [] ∧ T2 ≠ [] ∧ T1 <:+ A ∧ T2 <+: B := by
  obtain ⟨u, v, huv⟩ := h
  rw [List.append_assoc] at huv
  rcases List.append_eq_append_iff.mp huv with ⟨a', ha1, ha2⟩ | ⟨c', hc1, hc2⟩
  · rcases List.append_eq_append_iff.mp ha2 with ⟨x, hx1, hx2⟩ | ⟨y, hy1, hy2⟩
    · left
      exact ⟨u, x, by rw [ha1, hx1, List.append_assoc]⟩
    · cases hy : y with
      | nil =>
        left
        rw [hy] at hy1
        rw [List.append_nil] at hy1
        exact ⟨u, [], by rw [ha1, ← hy1, List.append_nil]⟩
      | cons yc ys =>
        cases ha : a' with
        | nil =>
          right; left
          rw [ha] at hy1
          simp only [List.nil_append] at hy1
          exact ⟨[], v, by rw [List.nil_append, hy1, hy2]⟩
        | cons ac as =>
          right; right
          refine ⟨a', y, hy1, by simp [ha], by simp [hy], ⟨u, ha1.symm⟩, ⟨v, hy2.symm⟩⟩
  · right; left
    exact ⟨c', v, by rw [hc2, List.append_assoc]⟩

/-- If every proper nonempty suffix of `A` fails to be a prefix of `B`
(checked by evaluation over the drop offsets `1..|A|-1`), then a nonempty
suffix of `A` that is a prefix of `B` must be `A` itself. -/
theorem suffix_prefix_cases (A B : List Char)
    (hdec : (List.range A.length).all
      (fun j => j == 0 || !((A.drop j).isPrefixOf B)) = true)
    (T1 : List Char) (hs : T1 <:+ A) (hne : T1 ≠ []) (hp : T1 <+: B) : T1 = A := by
  have heq : T1 = A.drop (A.length - T1.length) := List.suffix_iff_eq_drop.mp hs
  by_cases hj : A.length - T1.length = 0
  · rw [heq, hj, List.drop_zero]
  · exfalso
    have hlen : T1.length ≤ A.length := hs.length_le
    have hjlt : A.length - T1.length < A.length := by
      have : 0 < T1.length := List.length_pos.mpr hne
      omega
    have := List.all_eq_true.mp hdec _ (List.mem_range.mpr hjlt)
    simp only [Bool.or_eq_true, beq_iff_eq, Bool.not_eq_true'] at this
    rcases this with h0 | hnp
    · exact hj h0
    · rw [← heq] at hnp
      exact absurd (List.isPrefixOf_iff_prefix.mpr hp) (by simp [hnp])

/-- A prefix of the output of the stream-suffix replacement that is a
suffix of `mixedSuffix` is already a prefix of the input. -/
theorem replaceAll_stream_prefix_track :
    ∀ (s : List Char) (k : Nat), k < mixedSuffix.length →
      mixedSuffix.drop k <+: replaceAll s streamSuffix streamRep →
      mixedSuffix.drop k <+: s := by
  intro s
  induction s with
  | nil =>
    intro k hk h
    simpa only [replaceAll] using h
  | cons c cs ih =>
    intro k hk h
    have hlen : mixedSuffix.length = 30 := by decide
    by_cases hm : streamSuffix.isPrefixOf (c :: cs) ∧ streamSuffix ≠ []
    · unfold replaceAll at h
      rw [dif_pos hm] at h
      rcases prefix_append_cases h with h1 | ⟨h2, _⟩
      · have hT1 : mixedSuffix.drop k <:+ mixedSuffix := List.drop_suffix k _
        have hne : mixedSuffix.drop k ≠ [] := by
          have hpos : 0 < (mixedSuffix.drop k).length := by
            rw [List.length_drop]
            omega
          exact List.length_pos.mp hpos
        have heq := suffix_prefix_cases mixedSuffix streamRep (by decide) _ hT1 hne h1
        rw [heq] at h1
        exact absurd h1 (by decide)
      · have hinf : streamRep <:+: mixedSuffix :=
          List.infix_iff_prefix_suffix.mpr ⟨_, h2, List.drop_suffix k _⟩
        exact absurd hinf (by decide)
    · unfold replaceAll at h
      rw [dif_neg hm] at h
      rw [List.drop_eq_getElem_cons hk, List.cons_prefix_cons] at h
      obtain ⟨hc, htail⟩ := h
      by_cases hk1 : k + 1 < mixedSuffix.length
      · have hrec := ih (k + 1) hk1 htail
        rw [List.drop_eq_getElem_cons hk, List.cons_prefix_cons]
        exact ⟨hc, hrec⟩
      · have hdrop : mixedSuffix.drop (k + 1) = [] := List.drop_eq_nil_of_le (by omega)
        rw [List.drop_eq_getElem_cons hk, List.cons_prefix_cons]
        rw [hdrop]
        exact ⟨hc, List.nil_prefix⟩

/-- The invoke-suffix analogue, for inputs not containing
`/invoke-with-response-stream` (the first branch's guard). -/
theorem replaceAll_invoke_prefix_track :
    ∀ (n : Nat) (s : List Char), s.length ≤ n → ¬ streamSuffix <:+: s →
      ∀ k, k < mixedSuffix.length →
        mixedSuffix.drop k <+: replaceAll s invokeSuffix converseRep →
        mixedSuffix.drop k <+: s := by
  intro n
  induction n with
  | zero =>
    intro s hsl hP k hk h
    have hz := List.length_eq_zero.mp (Nat.le_zero.mp hsl)
    subst hz
    simpa only [replaceAll] using h
  | succ n ih =>
    intro s hsl hP k hk h
    cases s with
    | nil => simpa only [replaceAll] using h
    | cons c cs =>
      have hlen : mixedSuffix.length = 30 := by decide
      by_cases hm : invokeSuffix.isPrefixOf (c :: cs) ∧ invokeSuffix ≠ []
      · unfold replaceAll at h
        rw [dif_pos hm] at h
        rcases prefix_append_cases h with h1 | ⟨h2, h3⟩
        · have hT1 : mixedSuffix.drop k <:+ mixedSuffix := List.drop_suffix k _
          have hne : mixedSuffix.drop k ≠ [] := by
            have hpos : 0 < (mixedSuffix.drop k).length := by
              rw [List.length_drop]
              omega
            exact List.length_pos.mp hpos
          have heq := suffix_prefix_cases mixedSuffix converseRep (by decide) _ hT1 hne h1
          rw [heq] at h1
          exact absurd h1 (by decide)
        · by_cases hk0 : k = 0
          · exfalso
            subst hk0
            rw [List.drop_zero] at h3
            have hdd : (mixedSuffix.drop converseRep.length) <+:
                replaceAll ((c :: cs).drop invokeSuffix.length) invokeSuffix converseRep := h3
            have hsl2 : ((c :: cs).drop invokeSuffix.length).length ≤ n := by
              rw [List.length_drop]
              simp only [List.length_cons] at hsl ⊢
              have h7 : invokeSuffix.length = 7 := by decide
              rw [h7]
              omega
            have hP2 : ¬ streamSuffix <:+: (c :: cs).drop invokeSuffix.length := fun hinf =>
              hP (hinf.trans (List.drop_suffix _ _).isInfix)
            have hrec := ih _ hsl2 hP2 converseRep.length (by decide) hdd
            obtain ⟨t, htt⟩ := hrec
            have hsplit : (c :: cs) = invokeSuffix ++ (c :: cs).drop invokeSuffix.length := by
              have hpre := List.isPrefixOf_iff_prefix.mp hm.1
              conv_lhs => rw [← List.take_append_drop invokeSuffix.length (c :: cs)]
              congr 1
              exact (List.prefix_iff_eq_take.mp hpre).symm
            have hfull : streamSuffix <+: (c :: cs) := by
              refine ⟨t, ?_⟩
              rw [hsplit, ← htt, ← List.append_assoc]
              congr 1
            exact hP hfull.isInfix
          · have hsuf : mixedSuffix.drop k <:+ mixedSuffix.drop 1 := by
              have hdd : mixedSuffix.drop k = (mixedSuffix.drop 1).drop (k - 1) := by
                rw [List.drop_drop]
                congr 1
                omega
              rw [hdd]
              exact List.drop_suffix _ _
            have hinf : converseRep <:+: mixedSuffix.drop 1 :=
              List.infix_iff_prefix_suffix.mpr ⟨_, h2, hsuf⟩
            exact absurd hinf (by decide)
      · unfold replaceAll at h
        rw [dif_neg hm] at h
        rw [List.drop_eq_getElem_cons hk, List.cons_prefix_cons] at h
        obtain ⟨hc, htail⟩ := h
        have hP2 : ¬ streamSuffix <:+: cs := fun hinf =>
          hP (hinf.trans (List.suffix_cons c cs).isInfix)
        have hsl2 : cs.length ≤ n := by
          simp only [List.length_cons] at hsl
          omega
        by_cases hk1 : k + 1 < mixedSuffix.length
        · have hrec := ih cs hsl2 hP2 (k + 1) hk1 htail
          rw [List.drop_eq_getElem_cons hk, List.cons_prefix_cons]
          exact ⟨hc, hrec⟩
        · have hdrop : mixedSuffix.drop (k + 1) = [] := List.drop_eq_nil_of_le (by omega)
          rw [List.drop_eq_getElem_cons hk, List.cons_prefix_cons, hdrop]
          exact ⟨hc, List.nil_prefix⟩

/-- After an `/invoke` match, the output cannot continue with
`-with-response-stream`: the input would have contained the full
`/invoke-with-response-stream`. -/
theorem invoke_drop9_contra (c : Char) (cs : List Char)
    (hm : invokeSuffix.isPrefixOf (c :: cs) ∧ invokeSuffix ≠ [])
    (hP : ¬ streamSuffix <:+: (c :: cs))
    (h : mixedSuffix.drop converseRep.length <+:
      replaceAll ((c :: cs).drop invokeSuffix.length) invokeSuffix converseRep) : False := by
  have hP2 : ¬ streamSuffix <:+: (c :: cs).drop invokeSuffix.length := fun hinf =>
    hP (hinf.trans (List.drop_suffix _ _).isInfix)
  have hrec := replaceAll_invoke_prefix_track
    ((c :: cs).drop invokeSuffix.length).length _ le_rfl hP2
    converseRep.length (by decide) h
  obtain ⟨t, htt⟩ := hrec
  have hsplit : (c :: cs) = invokeSuffix ++ (c :: cs).drop invokeSuffix.length := by
    have hpre := List.isPrefixOf_iff_prefix.mp hm.1
    conv_lhs => rw [← List.take_append_drop invokeSuffix.length (c :: cs)]
    congr 1
    exact (List.prefix_iff_eq_take.mp hpre).symm
  have hfull : streamSuffix <+: (c :: cs) := by
    refine ⟨t, ?_⟩
    rw [hsplit, ← htt, ← List.append_assoc]
    congr 1
  exact hP hfull.isInfix

theorem replaceAll_stream_no_mixed :
    ∀ (n : Nat) (s : List Char), s.length ≤ n → ¬ mixedSuffix <:+: s →
      ¬ mixedSuffix <:+: replaceAll s streamSuffix streamRep := by
  intro n
  induction n with
  | zero =>
    intro s hsl hT
    have hz := List.length_eq_zero.mp (Nat.le_zero.mp hsl)
    subst hz
    simpa only [replaceAll] using hT
  | succ n ih =>
    intro s hsl hT
    cases s with
    | nil => simpa only [replaceAll] using hT
    | cons c cs =>
      by_cases hm : streamSuffix.isPrefixOf (c :: cs) ∧ streamSuffix ≠ []
      · unfold replaceAll
        rw [dif_pos hm]
        intro hinf
        rcases infix_append_cases hinf with h1 | h1 | ⟨T1, T2, hT12, hne1, hne2, hsuf, hpre⟩
        · exact absurd h1 (by decide)
        · have hsl2 : ((c :: cs).drop streamSuffix.length).length ≤ n := by
            rw [List.length_drop]
            simp only [List.length_cons] at hsl ⊢
            have h28 : streamSuffix.length = 28 := by decide
            rw [h28]
            omega
          have hT2 : ¬ mixedSuffix <:+: (c :: cs).drop streamSuffix.length := fun hx =>
            hT (hx.trans (List.drop_suffix _ _).isInfix)
          exact ih _ hsl2 hT2 h1
        · have hT1pre : T1 <+: mixedSuffix := ⟨T2, hT12.symm⟩
          have heq := suffix_prefix_cases streamRep mixedSuffix (by decide) T1 hsuf hne1 hT1pre
          rw [heq] at hT1pre
          exact absurd hT1pre (by decide)
      · unfold replaceAll
        rw [dif_neg hm]
        intro hinf
        rcases List.infix_cons_iff.mp hinf with hpre | hinf2
        · rw [show mixedSuffix = '/' :: mixedSuffix.drop 1 from rfl,
            List.cons_prefix_cons] at hpre
          obtain ⟨hc, htail⟩ := hpre
          have hrec := replaceAll_stream_prefix_track cs 1 (by decide) htail
          have : mixedSuffix <+: c :: cs := by
            rw [show mixedSuffix = '/' :: mixedSuffix.drop 1 from rfl,
              List.cons_prefix_cons]
            exact ⟨hc, hrec⟩
          exact hT this.isInfix
        · have hT2 : ¬ mixedSuffix <:+: cs := fun hx =>
            hT (hx.trans (List.suffix_cons c cs).isInfix)
          have hsl2 : cs.length ≤ n := by
            simp only [List.length_cons] at hsl
            omega
          exact ih cs hsl2 hT2 hinf2

theorem replaceAll_invoke_no_mixed :
    ∀ (n : Nat) (s : List Char), s.length ≤ n → ¬ mixedSuffix <:+: s →
      ¬ streamSuffix <:+: s →
      ¬ mixedSuffix <:+: replaceAll s invokeSuffix converseRep := by
  intro n
  induction n with
  | zero =>
    intro s hsl hT hP
    have hz := List.length_eq_zero.mp (Nat.le_zero.mp hsl)
    subst hz
    simpa only [replaceAll] using hT
  | succ n ih =>
    intro s hsl hT hP
    cases s with
    | nil => simpa only [replaceAll] using hT
    | cons c cs =>
      by_cases hm : invokeSuffix.isPrefixOf (c :: cs) ∧ invokeSuffix ≠ []
      · unfold replaceAll
        rw [dif_pos hm]
        intro hinf
        rcases infix_append_cases hinf with h1 | h1 | ⟨T1, T2, hT12, hne1, hne2, hsuf, hpre⟩
        · exact absurd h1 (by decide)
        · have hsl2 : ((c :: cs).drop invokeSuffix.length).length ≤ n := by
            rw [List.length_drop]
            simp only [List.length_cons] at hsl ⊢
            have h7 : invokeSuffix.length = 7 := by decide
            rw [h7]
            omega
          have hT2 : ¬ mixedSuffix <:+: (c :: cs).drop invokeSuffix.length := fun hx =>
            hT (hx.trans (List.drop_suffix _ _).isInfix)
          have hP2 : ¬ streamSuffix <:+: (c :: cs).drop invokeSuffix.length := fun hx =>
            hP (hx.trans (List.drop_suffix _ _).isInfix)
          exact ih _ hsl2 hT2 hP2 h1
        · have hT1pre : T1 <+: mixedSuffix := ⟨T2, hT12.symm⟩
          have heq := suffix_prefix_cases converseRep mixedSuffix (by decide) T1 hsuf hne1 hT1pre
          subst heq
          have hT2eq : T2 = mixedSuffix.drop converseRep.length := by
            have := hT12
            rw [this, List.drop_left]
          rw [hT2eq] at hpre
          exact invoke_drop9_contra c cs hm hP hpre
      · unfold replaceAll
        rw [dif_neg hm]
        intro hinf
        rcases List.infix_cons_iff.mp hinf with hpre | hinf2
        · rw [show mixedSuffix = '/' :: mixedSuffix.drop 1 from rfl,
            List.cons_prefix_cons] at hpre
          obtain ⟨hc, htail⟩ := hpre
          have hP2 : ¬ streamSuffix <:+: cs := fun hx =>
            hP (hx.trans (List.suffix_cons c cs).isInfix)
          have hrec := replaceAll_invoke_prefix_track cs.length cs le_rfl hP2 1 (by decide) htail
          have : mixedSuffix <+: c :: cs := by
            rw [show mixedSuffix = '/' :: mixedSuffix.drop 1 from rfl,
              List.cons_prefix_cons]
            exact ⟨hc, hrec⟩
          exact hT this.isInfix
        · have hT2 : ¬ mixedSuffix <:+: cs := fun hx =>
            hT (hx.trans (List.suffix_cons c cs).isInfix)
          have hP2 : ¬ streamSuffix <:+: cs := fun hx =>
            hP (hx.trans (List.suffix_cons c cs).isInfix)
          have hsl2 : cs.length ≤ n := by
            simp only [List.length_cons] at hsl
            omega
          exact ih cs hsl2 hT2 hP2 hinf2

/-- C10: `_translate_endpoint` never manufactures the corrupted
`/converse-with-response-stream` endpoint (an input free of that substring
translates to an output free of it, in every branch); a string containing
no `/invoke` (hence also no `/invoke-with-response-stream`) is returned
unchanged; and re-applying the function to an output containing neither
suffix leaves it unchanged. -/
theorem c10_translate_endpoint :
    (∀ s : List Char, ¬ mixedSuffix <:+: s → ¬ mixedSuffix <:+: translate_endpoint s) ∧
    (∀ s : List Char, ¬ invokeSuffix <:+: s → translate_endpoint s = s) ∧
    (∀ s : List Char, ¬ streamSuffix <:+: translate_endpoint s →
      ¬ invokeSuffix <:+: translate_endpoint s →
      translate_endpoint (translate_endpoint s) = translate_endpoint s) := by
  have fixed : ∀ s : List Char, ¬ invokeSuffix <:+: s → translate_endpoint s = s := by
    intro s hi
    have hstream : ¬ streamSuffix <:+: s := fun hs =>
      hi (((by decide : invokeSuffix <+: streamSuffix)).isInfix.trans hs)
    unfold translate_endpoint
    rw [if_neg (fun h => hstream ((seg_eq_true_iff _ _).mp h)),
      if_neg (fun h => hi ((seg_eq_true_iff _ _).mp h))]
  refine ⟨?_, fixed, fun s h1 h2 => fixed _ h2⟩
  intro s hT
  unfold translate_endpoint
  by_cases h1 : seg streamSuffix s = true
  · rw [if_pos h1]
    exact replaceAll_stream_no_mixed s.length s le_rfl hT
  · rw [if_neg h1]
    by_cases h2 : seg invokeSuffix s = true
    · rw [if_pos h2]
      exact replaceAll_invoke_no_mixed s.length s le_rfl hT
        (fun hs => h1 ((seg_eq_true_iff _ _).mpr hs))
    · rw [if_neg h2]
      exact hT

/-- Witness for C10 at a realistic endpoint and at a suffix-free string. -/
theorem c10_translate_endpoint_witness :
    ¬ mixedSuffix <:+:
      translate_endpoint "http://h/model/m/invoke-with-response-stream".toList ∧
    translate_endpoint "http://h/model/m/converse".toList =
      "http://h/model/m/converse".toList :=
  ⟨c10_translate_endpoint.1 _ (by decide), c10_translate_endpoint.2.1 _ (by decide)⟩

end BTS
